import Mathlib

/-!
Verification development for the TTS fuel-distribution backend's ledger
reconciliation core: tax due computation, tax-record aggregation, the bank
payment allocation engine (`bank_profile.py`), the single-order tax payment
endpoint (`tax.py`), and the shareholder tax split engine (`shareholders.py`).

The Python code is shallowly embedded: monetary values and per-unit rates are
modelled as exact rationals (`ℚ`), Python's `round(x, n)` as round-half-to-even
on rationals, Mongo documents as Lean structures with `Option` fields for
possibly-absent keys, collections as lists, and each route handler as a pure
function threading the database state explicitly.
-/

namespace TTS

/-- Round a rational to the nearest integer, ties to even — the semantics of
Python's builtin `round` (banker's rounding), applied here to exact rationals. -/
def roundHE (q : ℚ) : ℤ :=
  if q - (⌊q⌋ : ℚ) < 1/2 then ⌊q⌋
  else if 1/2 < q - (⌊q⌋ : ℚ) then ⌊q⌋ + 1
  else if ⌊q⌋ % 2 = 0 then ⌊q⌋ else ⌊q⌋ + 1

/-- Python's `round(x, 2)` on exact rationals. -/
def round2 (q : ℚ) : ℚ := (roundHE (q * 100) : ℚ) / 100

/-- Python's `round(x, 4)` on exact rationals. -/
def round4 (q : ℚ) : ℚ := (roundHE (q * 10000) : ℚ) / 10000

/-- A rational that is a whole number of hundredths (a two-decimal money value). -/
def Cent (q : ℚ) : Prop := ∃ n : ℤ, q = (n : ℚ) / 100

theorem roundHE_intCast (n : ℤ) : roundHE (n : ℚ) = n := by
  unfold roundHE
  simp [Int.floor_intCast]

theorem floor_le_roundHE (q : ℚ) : ⌊q⌋ ≤ roundHE q := by
  unfold roundHE
  split_ifs <;> omega

theorem roundHE_le_floor_add_one (q : ℚ) : roundHE q ≤ ⌊q⌋ + 1 := by
  unfold roundHE
  split_ifs <;> omega

theorem roundHE_ge_int {n : ℤ} {q : ℚ} (h : (n : ℚ) ≤ q) : n ≤ roundHE q := by
  have h1 : n ≤ ⌊q⌋ := Int.le_floor.mpr h
  exact le_trans h1 (floor_le_roundHE q)

theorem roundHE_le_int {n : ℤ} {q : ℚ} (h : q ≤ (n : ℚ)) : roundHE q ≤ n := by
  have hf : ⌊q⌋ ≤ n := by
    have := Int.floor_le_floor h
    simpa [Int.floor_intCast] using this
  rcases lt_or_eq_of_le hf with hlt | heq
  · exact le_trans (roundHE_le_floor_add_one q) (by omega)
  · -- ⌊q⌋ = n together with q ≤ n forces q = n, so the fractional part is 0
    have hq1 : (n : ℚ) ≤ q := by
      have := Int.floor_le q
      rw [heq] at this
      exact this
    have hq : q = (n : ℚ) := le_antisymm h hq1
    rw [hq, roundHE_intCast]

theorem roundHE_abs_sub (q : ℚ) : |(roundHE q : ℚ) - q| ≤ 1/2 := by
  have hfl : (⌊q⌋ : ℚ) ≤ q := Int.floor_le q
  have hfu : q < (⌊q⌋ : ℚ) + 1 := Int.lt_floor_add_one q
  unfold roundHE
  split_ifs with h1 h2 h3 <;>
    [skip; skip; skip; skip] <;>
    rw [abs_le] <;>
    constructor <;>
    push_cast <;>
    linarith

theorem round2_abs_sub (q : ℚ) : |round2 q - q| ≤ 1/200 := by
  have h := roundHE_abs_sub (q * 100)
  unfold round2
  have : (roundHE (q * 100) : ℚ) / 100 - q = ((roundHE (q * 100) : ℚ) - q * 100) / 100 := by
    ring
  rw [this, abs_div]
  rw [show |(100 : ℚ)| = 100 by norm_num]
  linarith [abs_nonneg ((roundHE (q * 100) : ℚ) - q * 100)]

theorem round4_abs_sub (q : ℚ) : |round4 q - q| ≤ 1/20000 := by
  have h := roundHE_abs_sub (q * 10000)
  unfold round4
  have : (roundHE (q * 10000) : ℚ) / 10000 - q = ((roundHE (q * 10000) : ℚ) - q * 10000) / 10000 := by
    ring
  rw [this, abs_div]
  rw [show |(10000 : ℚ)| = 10000 by norm_num]
  linarith [abs_nonneg ((roundHE (q * 10000) : ℚ) - q * 10000)]

theorem round2_zero : round2 0 = 0 := by
  unfold round2
  rw [show ((0:ℚ) * 100) = ((0:ℤ) : ℚ) by norm_num, roundHE_intCast]
  norm_num

theorem cent_round2 (q : ℚ) : Cent (round2 q) := ⟨roundHE (q * 100), rfl⟩

theorem round2_eq_self {q : ℚ} (h : Cent q) : round2 q = q := by
  obtain ⟨n, rfl⟩ := h
  unfold round2
  have h1 : (n : ℚ) / 100 * 100 = (n : ℚ) := by ring
  rw [h1, roundHE_intCast]

theorem cent_zero : Cent 0 := ⟨0, by norm_num⟩

theorem cent_sub {a b : ℚ} (ha : Cent a) (hb : Cent b) : Cent (a - b) := by
  obtain ⟨n, rfl⟩ := ha
  obtain ⟨m, rfl⟩ := hb
  exact ⟨n - m, by push_cast; ring⟩

theorem cent_min {a b : ℚ} (ha : Cent a) (hb : Cent b) : Cent (min a b) := by
  rcases le_total a b with h | h
  · rw [min_eq_left h]; exact ha
  · rw [min_eq_right h]; exact hb

theorem cent_max {a b : ℚ} (ha : Cent a) (hb : Cent b) : Cent (max a b) := by
  rcases le_total a b with h | h
  · rw [max_eq_right h]; exact hb
  · rw [max_eq_left h]; exact ha

theorem round2_nonneg {q : ℚ} (h : 0 ≤ q) : 0 ≤ round2 q := by
  unfold round2
  have h1 : (0 : ℤ) ≤ roundHE (q * 100) := roundHE_ge_int (by positivity)
  positivity

theorem round2_nonpos {q : ℚ} (h : q ≤ 0) : round2 q ≤ 0 := by
  unfold round2
  have h1 : roundHE (q * 100) ≤ (0 : ℤ) := by
    apply roundHE_le_int
    push_cast
    nlinarith
  have h2 : ((roundHE (q * 100) : ℚ)) ≤ 0 := by exact_mod_cast h1
  linarith

theorem round2_le_of_le_cent {d a : ℚ} (hd : Cent d) (h : a ≤ d) : round2 a ≤ d := by
  obtain ⟨n, rfl⟩ := hd
  unfold round2
  have h1 : a * 100 ≤ (n : ℚ) := by
    rw [le_div_iff₀ (by norm_num : (0:ℚ) < 100)] at h
    linarith
  have h2 : roundHE (a * 100) ≤ n := roundHE_le_int h1
  have h3 : ((roundHE (a * 100) : ℚ)) ≤ (n : ℚ) := by exact_mod_cast h2
  linarith [div_le_div_of_nonneg_right (c := (100:ℚ)) h3 (by norm_num)]

theorem le_round2_of_cent_le {d a : ℚ} (hd : Cent d) (h : d ≤ a) : d ≤ round2 a := by
  obtain ⟨n, rfl⟩ := hd
  unfold round2
  have h1 : (n : ℚ) ≤ a * 100 := by
    rw [div_le_iff₀ (by norm_num : (0:ℚ) < 100)] at h
    linarith
  have h2 : n ≤ roundHE (a * 100) := roundHE_ge_int h1
  have h3 : (n : ℚ) ≤ (roundHE (a * 100) : ℚ) := by exact_mod_cast h2
  linarith [div_le_div_of_nonneg_right (c := (100:ℚ)) h3 (by norm_num)]

/-! ## Data model

Mongo documents are modelled as structures; fields that may be missing (or
explicitly `null`) in a document are `Option`-valued.  Collections are lists.
-/

/-- ASCII lowercasing, modelling Python's `str.lower()` on the ASCII status and
type strings used by the code. -/
def lowerStr (s : String) : String := ⟨s.data.map Char.toLower⟩

/-- A BSON value that refers to an order: either a typed `ObjectId` or its
string serialization.  In Mongo these are distinct values: a query for the
typed id never matches the string form, and vice versa. -/
inductive OidVal where
  | oid (n : ℕ)
  | str (n : ℕ)
deriving DecidableEq, Repr

/-- A document of the `orders` collection.  Field `s_tax_alt` models the
`"s-tax"` key spelling, `s_tax_payment_alt` models `"s-tax-payment"`. -/
structure Order where
  oid : ℕ
  order_id : ℕ
  omc : String
  product : String
  status : String
  order_type : String
  quantity : ℚ
  s_tax : Option ℚ
  s_tax_alt : Option ℚ
  date : ℕ
  shareholder : Option String
  s_tax_payment : Option String
  s_tax_payment_alt : Option String
  s_tax_paid_amount : Option ℚ
  s_tax_paid_at : Option ℕ
  s_tax_reference : Option String
  s_tax_paid_by : Option String
  total_returns : Option ℚ
  returns_total : Option ℚ
  margin : Option ℚ
deriving DecidableEq, Repr

/-- A document of the `tax_records` collection. -/
structure TaxRecord where
  type : String
  amount : ℚ
  payment_date : ℕ
  reference : Option String
  paid_by : Option String
  omc : Option String
  order_id : Option ℕ
  order_oid : Option OidVal
  source_bank_id : Option ℕ
deriving DecidableEq, Repr

/-- The database state visible to the reconciliation core. -/
structure DBState where
  orders : List Order
  taxRecords : List TaxRecord
deriving DecidableEq, Repr

/-! ## Type-pattern matching (`^s[\s_-]*tax$`, case-insensitive)

The Python code selects S-Tax records with the regex `^s[\s_-]*tax$` under the
`i` option: an `s`, any run of whitespace/underscore/hyphen separators, then
`tax`, matching the whole string case-insensitively. -/

/-- Characters matched by the regex class `[\s_-]`. -/
def isSepChar (c : Char) : Bool :=
  c == ' ' || c == '\t' || c == '\n' || c == '\r' || c == '\x0b' || c == '\x0c' ||
    c == '_' || c == '-'

/-- Matches the trailing `tax` of the pattern, case-insensitively. -/
def matchTax (cs : List Char) : Bool :=
  match cs with
  | [t, a, x] =>
      (t == 't' || t == 'T') && (a == 'a' || a == 'A') && (x == 'x' || x == 'X')
  | _ => false

/-- The record-type filter `{"type": {"$regex": r"^s[\s_-]*tax$", "$options": "i"}}`. -/
def staxTypeMatch (s : String) : Bool :=
  match s.data with
  | [] => false
  | c :: rest => (c == 's' || c == 'S') && matchTax (rest.dropWhile isSepChar)

/-- Declarative reading of the type pattern: an `s`, then a (possibly empty)
run of separator characters, then `tax`, all case-insensitive. -/
def SpecTypePred (s : String) : Prop :=
  ∃ (c0 t a x : Char) (seps : List Char),
    s.data = c0 :: (seps ++ [t, a, x]) ∧
    (c0 = 's' ∨ c0 = 'S') ∧ (∀ c ∈ seps, isSepChar c = true) ∧
    (t = 't' ∨ t = 'T') ∧ (a = 'a' ∨ a = 'A') ∧ (x = 'x' ∨ x = 'X')

/-! ## Payment aggregator (`bank_profile._paid_sum_for_order`) -/

/-- Model of `_paid_sum_for_order(oid)` in `bank_profile.py`: sums the `amount` of tax
records whose `order_oid` equals the typed `ObjectId` `oid` and whose `type`
matches the S-Tax pattern.  Note the aggregation matches only the typed id
form: `{"$match": {"order_oid": oid, ...}}`. -/
def paidSumForOrder (recs : List TaxRecord) (d : ℕ) : ℚ :=
  ((recs.filter fun r =>
      (r.order_oid == some (OidVal.oid d)) && staxTypeMatch r.type).map
    TaxRecord.amount).sum

/-- Modelled from the spec's words for the Payment Aggregator: a record's
order reference matches "whether the reference is stored as a typed identifier
or as its string form (both representations are queried)". Used only to compare
the code's aggregator against the spec's description. -/
def paidSumSpec (recs : List TaxRecord) (d : ℕ) : ℚ :=
  ((recs.filter fun r =>
      (r.order_oid == some (OidVal.oid d) || r.order_oid == some (OidVal.str d)) &&
        staxTypeMatch r.type).map
    TaxRecord.amount).sum

/-! ## Tax due calculator -/

/-- Model of `_stax_per_l(order)`: per-unit S-Tax rate, read from the `s_tax` key if
present with a non-null (numeric) value, else from the `s-tax` key, else 0.
Both `tax.py` and `bank_profile.py` define this helper identically under the
model. -/
def staxPerL (o : Order) : ℚ :=
  match o.s_tax with
  | some v => v
  | none =>
    match o.s_tax_alt with
    | some v => v
    | none => 0

/-- Model of `tax._order_stax_due(order)`: `round(q * stax, 2)`. -/
def orderStaxDue (o : Order) : ℚ := round2 (o.quantity * staxPerL o)

/-- Model of `bank_profile._order_due(order)`: `round(stax * quantity, 2)`. -/
def orderDue (o : Order) : ℚ := round2 (staxPerL o * o.quantity)

/-- The spec's rate-selection rule, stated from its words: the per-unit rate is
read from whichever of the two field spellings is present with a non-null
value, first non-null wins; absent on both spellings means rate 0. -/
def staxRateSpec (o : Order) : ℚ :=
  match o.s_tax, o.s_tax_alt with
  | some v, _ => v
  | none, some v => v
  | none, none => 0

/-! ## Payment status helpers -/

/-- Whether an optional status field holds (case-insensitively) `"paid"`. -/
def optStatusPaid : Option String → Bool
  | none => false
  | some s => lowerStr s == "paid"

/-- Model of `tax._is_paid(order)`: either status field spelling records `"paid"`. -/
def isPaidOrder (o : Order) : Bool :=
  optStatusPaid o.s_tax_payment || optStatusPaid o.s_tax_payment_alt

/-- Whether an optional status field holds (case-insensitively) `"partial"`. -/
def optStatusMid : Option String → Bool
  | none => false
  | some s => lowerStr s == "partial"

/-- Status `"partial"` on either status field spelling. -/
def isMidOrder (o : Order) : Bool :=
  optStatusMid o.s_tax_payment || optStatusMid o.s_tax_payment_alt

/-- Rank of a tax payment status on the pending → partial → paid scale. -/
def rankOf (o : Order) : ℕ :=
  if isPaidOrder o then 2 else if isMidOrder o then 1 else 0

/-! ## Single-order tax payment (`tax.pay_stax`)

The handler is modelled as a pure function returning the new database state
together with the route's discriminated outcome.  Bank-id / order-id string
validity and payment-date string parsing concern request decoding and are not
modelled (ids are `ℕ`, dates are `ℕ`). -/

/-- Error outcomes of `pay_stax`; `belowDue` carries the due amount cited in
the error message `"Amount must cover S-Tax due (GH₵ …)"`. -/
inductive StaxPayErr where
  | orderNotFound
  | noStax
  | alreadyPaid
  | nonPositiveAmount
  | belowDue (due : ℚ)
deriving DecidableEq, Repr

/-- The `$set` document applied to the order by a successful `pay_stax`. -/
def updAfterStax (amount : ℚ) (ref paidBy : String) (payDt : ℕ) (x : Order) : Order :=
  { x with
    s_tax_payment := some "paid"
    s_tax_payment_alt := some "paid"
    s_tax_paid_amount := some (round2 amount)
    s_tax_paid_at := some payDt
    s_tax_reference := if ref == "" then none else some ref
    s_tax_paid_by := if paidBy == "" then none else some paidBy }

/-- Model of `pay_stax` in `tax.py`: find the order, check S-Tax eligibility
(`order_type` in `{s_tax, combo}` lowercased, or a positive per-unit rate),
reject if already paid, require `amount ≥ due`, then insert one `"S-Tax"`
record and mark the order paid. -/
def pay_stax (st : DBState) (oid : ℕ) (amount : ℚ) (ref paidBy : String)
    (payDt : ℕ) : DBState × Except StaxPayErr Unit :=
  match st.orders.find? (fun o => o.oid == oid) with
  | none => (st, .error .orderNotFound)
  | some o =>
    let isStaxType := lowerStr o.order_type == "s_tax" || lowerStr o.order_type == "combo"
    let hasStaxValue := decide (0 < staxPerL o)
    if !(isStaxType || hasStaxValue) then (st, .error .noStax)
    else if isPaidOrder o then (st, .error .alreadyPaid)
    else
      let due := orderStaxDue o
      if amount ≤ 0 then (st, .error .nonPositiveAmount)
      else if amount < due then (st, .error (.belowDue due))
      else
        let newRec : TaxRecord :=
          { type := "S-Tax"
            amount := round2 amount
            payment_date := payDt
            reference := if ref == "" then none else some ref
            paid_by := if paidBy == "" then none else some paidBy
            omc := some o.omc
            order_id := some o.order_id
            order_oid := some (OidVal.oid oid)
            source_bank_id := none }
        ( { orders := st.orders.map fun x =>
              if x.oid == oid then updAfterStax amount ref paidBy payDt x else x
            taxRecords := st.taxRecords ++ [newRec] },
          .ok () )

/-! ## Bank-payment allocation engine (`bank_profile.pay_omc_from_bank`) -/

/-- Error outcomes of `pay_omc_from_bank`; `exceedsOutstanding` carries the
OMC's total outstanding cited in the message
`"Amount exceeds OMC outstanding (GHS …)"`. -/
inductive BankPayErr where
  | omcRequired
  | nonPositiveAmount
  | noOutstanding
  | exceedsOutstanding (total : ℚ)
deriving DecidableEq, Repr

/-- One element of the route's `allocated` response list. -/
structure AllocEntry where
  order_id : ℕ
  applied : ℚ
  remaining_after : ℚ
deriving DecidableEq, Repr

/-- The order query of `pay_omc_from_bank`: this OMC, and S-Tax eligible
(explicit `s_tax`/`combo` order type, or a positive value on either rate key). -/
def eligibleBank (omc : String) (o : Order) : Bool :=
  o.omc == omc &&
    (o.order_type == "s_tax" || o.order_type == "combo" ||
      (match o.s_tax with | some v => decide (0 < v) | none => false) ||
      (match o.s_tax_alt with | some v => decide (0 < v) | none => false))

/-- Model of `.sort("date", 1)`: ascending by order date. -/
def sortByDate (l : List Order) : List Order :=
  l.insertionSort (fun a b => a.date ≤ b.date)

/-- Computes `max(0.0, round(due - paid, 2))` for one order against a record set. -/
def calcRemaining (recs : List TaxRecord) (o : Order) : ℚ :=
  max 0 (round2 (orderDue o - paidSumForOrder recs o.oid))

/-- The engine's `alloc_list`: eligible orders of the OMC, oldest first, each
with its remaining balance, keeping only those with outstanding remaining. -/
def allocList (st : DBState) (omc : String) : List (Order × ℚ) :=
  ((sortByDate (st.orders.filter (eligibleBank omc))).map
    (fun o => (o, calcRemaining st.taxRecords o))).filter
    (fun p => decide (0 < p.2))

/-- The engine's `total_outstanding` accumulator. -/
def totalOutstanding (st : DBState) (omc : String) : ℚ :=
  ((allocList st omc).map Prod.snd).sum

/-- The `$set` document applied to an order by one allocation step.  The loop
works on a projection of the order document that does not include
`s_tax_reference`/`s_tax_paid_by`, so `ref or o.get(...)` falls back to null
when `ref` is empty. -/
def updAfterAlloc (ref paidBy : String) (payDt : ℕ) (newPaid remaining : ℚ)
    (x : Order) : Order :=
  { x with
    s_tax_paid_amount := some (round2 newPaid)
    s_tax_paid_at := some payDt
    s_tax_reference := if ref == "" then none else some ref
    s_tax_paid_by := if paidBy == "" then none else some paidBy
    s_tax_payment := some (if remaining ≤ 0 then "paid" else "partial")
    s_tax_payment_alt := some (if remaining ≤ 0 then "paid" else "partial") }

/-- The `"S-Tax"` record inserted by one allocation step. -/
def allocStepRec (bank : ℕ) (omc ref paidBy : String) (payDt : ℕ) (o : Order)
    (portion : ℚ) : TaxRecord :=
  { type := "S-Tax"
    amount := round2 portion
    payment_date := payDt
    reference := if ref == "" then none else some ref
    paid_by := if paidBy == "" then none else some paidBy
    omc := some omc
    order_id := some o.order_id
    order_oid := some (OidVal.oid o.oid)
    source_bank_id := some bank }

/-- The post-insert remaining re-read by one allocation step. -/
def allocStepRemaining (bank : ℕ) (omc ref paidBy : String) (payDt : ℕ)
    (o : Order) (rem left : ℚ) (st : DBState) : ℚ :=
  max 0 (round2 (orderDue o -
    paidSumForOrder
      (st.taxRecords ++ [allocStepRec bank omc ref paidBy payDt o (min left rem)])
      o.oid))

/-- The database state after one allocation step: the record is inserted, the
order's paid total re-read, and the order's cached fields and status updated. -/
def allocStepState (bank : ℕ) (omc ref paidBy : String) (payDt : ℕ)
    (o : Order) (rem left : ℚ) (st : DBState) : DBState :=
  let recs1 := st.taxRecords ++ [allocStepRec bank omc ref paidBy payDt o (min left rem)]
  let newPaid := paidSumForOrder recs1 o.oid
  let remaining := allocStepRemaining bank omc ref paidBy payDt o rem left st
  ⟨st.orders.map fun x =>
      if x.oid == o.oid then updAfterAlloc ref paidBy payDt newPaid remaining x else x,
    recs1⟩

/-- The oldest-first allocation loop: for each order with outstanding
remaining, while money is left, insert one `"S-Tax"` record for
`round(min(left, remaining), 2)`, re-read the order's paid total after the
insert, update the order's cached fields and status, and decrement `left`. -/
def allocLoop (bank : ℕ) (omc ref paidBy : String) (payDt : ℕ) :
    List (Order × ℚ) → DBState → ℚ → DBState × List AllocEntry
  | [], st, _ => (st, [])
  | (o, rem) :: rest, st, left =>
    if left ≤ 0 then (st, [])
    else
      let out := allocLoop bank omc ref paidBy payDt rest
        (allocStepState bank omc ref paidBy payDt o rem left st)
        (round2 (left - min left rem))
      (out.1,
        ⟨o.order_id, round2 (min left rem),
          allocStepRemaining bank omc ref paidBy payDt o rem left st⟩ :: out.2)

/-- Model of `pay_omc_from_bank` in `bank_profile.py`: validate the request, gather the
OMC's outstanding orders oldest first, reject if nothing is outstanding or the
amount exceeds the total outstanding, then allocate greedily. -/
def pay_omc_from_bank (st : DBState) (bank : ℕ) (omc : String) (amount : ℚ)
    (ref paidBy : String) (payDt : ℕ) : DBState × Except BankPayErr (List AllocEntry) :=
  if omc == "" then (st, .error .omcRequired)
  else if amount ≤ 0 then (st, .error .nonPositiveAmount)
  else
    let total := totalOutstanding st omc
    if total ≤ 0 then (st, .error .noOutstanding)
    else if total < amount then (st, .error (.exceedsOutstanding total))
    else
      let out := allocLoop bank omc ref paidBy payDt (allocList st omc) st amount
      (out.1, .ok out.2)

/-! ## Shareholder tax split engine (`shareholders.py`) -/

/-- Hard-coded `SHARE_SPLIT` configuration: fixed share fractions, used only
for splitting the NPA Component. -/
def SHARE_SPLIT : List (String × ℚ) :=
  [("Rex", 35/100), ("Simon", 35/100), ("Paul", 30/100)]

/-- A `shared_tax` document as stored; each rate key may be absent. -/
structure SharedTaxDoc where
  total_tax : Option ℚ
  gra_tax : Option ℚ
  npa_life_tax : Option ℚ
  npa_component_tax : Option ℚ
deriving DecidableEq, Repr

/-- The dict returned by `load_shared_tax`: every key present, each value
coerced through `_f` (so an absent or null stored rate becomes `0.0`). -/
structure LoadedRates where
  total_tax : ℚ
  gra_tax : ℚ
  npa_life_tax : ℚ
  npa_component_tax : ℚ
deriving DecidableEq, Repr

/-- Coercion `_f` applied to a possibly-missing numeric field: missing/null parses to 0. -/
def fOpt : Option ℚ → ℚ
  | none => 0
  | some v => v

/-- Model of `load_shared_tax(product)`: the `find_one` result mapped through `_f` on every
rate key. -/
def load_shared_tax : Option SharedTaxDoc → Option LoadedRates
  | none => none
  | some d =>
    some ⟨fOpt d.total_tax, fOpt d.gra_tax, fOpt d.npa_life_tax, fOpt d.npa_component_tax⟩

/-- Model of `derive_rates_for_product`: query-parameter overrides (all four present)
take priority; otherwise the stored `shared_tax` values.  The Python code then
guards `if npa_life_tax is None` / `if npa_component_tax is None` before
falling back to `max(total_tax - gra_tax, 0.0)` — but the dict produced by
`load_shared_tax` always carries every key (each already coerced through `_f`),
which is modelled by wrapping the loaded values in `some` here, exactly as
`stored.get("npa_life_tax", None)` can never return `None`. -/
def derive_rates_for_product (overrides : Option (ℚ × ℚ × ℚ × ℚ))
    (doc : Option SharedTaxDoc) : ℚ × ℚ × ℚ × ℚ :=
  match overrides with
  | some o => o
  | none =>
    match load_shared_tax doc with
    | some stored =>
      let total_tax := stored.total_tax
      let gra_tax := stored.gra_tax
      let npa_life_tax : Option ℚ := some stored.npa_life_tax
      let npa_component_tax : Option ℚ := some stored.npa_component_tax
      let npa_life_tax2 :=
        match npa_life_tax with
        | none => max (total_tax - gra_tax) 0
        | some v => v
      let npa_component_tax2 :=
        match npa_component_tax with
        | none => max (total_tax - gra_tax) 0
        | some v => v
      (total_tax, gra_tax, npa_life_tax2, npa_component_tax2)
    | none => (0, 0, 0, 0)

/-- Model of `fetch_orders_for_tax(product, start, end)`: approved orders of the product
with `start ≤ date < end`, split into those not tagged with the sentinel
shareholder `"neutral"` (main) and those tagged with it (neutral).  A missing
`shareholder` field satisfies the `$ne` query and lands in `main`. -/
def fetch_orders_for_tax (st : DBState) (product : String) (start endEx : ℕ) :
    List Order × List Order :=
  let base := st.orders.filter fun o =>
    o.status == "approved" && o.product == product &&
      decide (start ≤ o.date) && decide (o.date < endEx)
  (base.filter (fun o => !(o.shareholder == some "neutral")),
   base.filter (fun o => o.shareholder == some "neutral"))

/-- Model of `_order_total_returns`: prefer `total_returns`, then `returns_total`, else
`round(margin * quantity, 2)`. -/
def orderTotalReturns (o : Order) : ℚ :=
  match o.total_returns with
  | some v => v
  | none =>
    match o.returns_total with
    | some v => v
    | none => round2 (fOpt o.margin * o.quantity)

/-- Model of `summarize_orders_for_tax`: total volume `Σ int(round(quantity))` and total
returns rounded to 2 decimals. -/
def summarizeOrdersForTax (orders : List Order) : ℤ × ℚ :=
  ((orders.map (fun o => roundHE o.quantity)).sum,
   round2 ((orders.map orderTotalReturns).sum))

/-- One shareholder row of the NPA-component split. -/
structure SplitRow where
  name : String
  percent : ℤ
  rate : ℚ
  amount : ℚ
deriving DecidableEq, Repr

/-- One label/rate/amount row of the per-product tax table. -/
structure RateRow where
  label : String
  rate : ℚ
  amount : ℚ
deriving DecidableEq, Repr

/-- The per-product breakdown returned by `build_tax_breakdown_for_product`. -/
structure Breakdown where
  product : String
  volume_main : ℤ
  volume_neutral : ℤ
  neutral_total_returns : ℚ
  rows : List RateRow
  split_rows : List SplitRow
deriving DecidableEq, Repr

/-- Model of `build_tax_breakdown_for_product`: volumes from the period's orders
(neutral excluded from `volume_main`), authoritative rates from
`derive_rates_for_product`, informational rate rows, and the shareholder split
computed strictly on the NPA component:
`rate = round(npa * pct, 4)`, `amount = round(rate * vol_main, 2)`. -/
def build_tax_breakdown_for_product (overrides : Option (ℚ × ℚ × ℚ × ℚ))
    (doc : Option SharedTaxDoc) (st : DBState) (product : String)
    (start endEx : ℕ) : Breakdown :=
  let fetched := fetch_orders_for_tax st product start endEx
  let volMain := (summarizeOrdersForTax fetched.1).1
  let volNeutral := (summarizeOrdersForTax fetched.2).1
  let returnsNeutral := (summarizeOrdersForTax fetched.2).2
  let rates := derive_rates_for_product overrides doc
  let total_tax := rates.1
  let gra_tax := rates.2.1
  let npa_life_tax := rates.2.2.1
  let npa_component_tax := rates.2.2.2
  let life_component_tax := max (npa_life_tax - npa_component_tax) 0
  { product := product
    volume_main := volMain
    volume_neutral := volNeutral
    neutral_total_returns := returnsNeutral
    rows :=
      [⟨"Total Tax", round4 total_tax, round2 (total_tax * volMain)⟩,
       ⟨"GRA", round4 gra_tax, round2 (gra_tax * volMain)⟩,
       ⟨"NPA/Life", round4 npa_life_tax, round2 (npa_life_tax * volMain)⟩,
       ⟨"Life Component", round4 life_component_tax, round2 (life_component_tax * volMain)⟩,
       ⟨"NPA Component", round4 npa_component_tax, round2 (npa_component_tax * volMain)⟩]
    split_rows := SHARE_SPLIT.map fun np =>
      ⟨np.1, ⌊np.2 * 100⌋, round4 (npa_component_tax * np.2),
        round2 (round4 (npa_component_tax * np.2) * volMain)⟩ }

/-! ## Operation sequences and the ledger invariant -/

/-- A reconciliation operation: a single-order tax payment or a bank-payment
allocation. -/
inductive Op where
  | stax (oid : ℕ) (amount : ℚ) (ref paidBy : String) (payDt : ℕ)
  | bank (bank : ℕ) (omc : String) (amount : ℚ) (ref paidBy : String) (payDt : ℕ)

/-- The state transition of one operation (the route's response is dropped). -/
def applyOp (st : DBState) : Op → DBState
  | .stax oid amount ref paidBy payDt => (pay_stax st oid amount ref paidBy payDt).1
  | .bank bank omc amount ref paidBy payDt =>
      (pay_omc_from_bank st bank omc amount ref paidBy payDt).1

/-- A sequence of operations applied in order. -/
def applyOps (st : DBState) (ops : List Op) : DBState := ops.foldl applyOp st

/-- Ledger well-formedness: recorded amounts are non-negative, an order marked
paid has no outstanding remaining, and order ids are unique (Mongo `_id`s). -/
def Inv (st : DBState) : Prop :=
  (∀ r ∈ st.taxRecords, 0 ≤ r.amount) ∧
  (∀ o ∈ st.orders, isPaidOrder o = true → calcRemaining st.taxRecords o = 0) ∧
  (st.orders.map Order.oid).Nodup

/-! ## Concrete fixtures -/

/-- An order document template for concrete scenarios. -/
def baseOrder : Order :=
  { oid := 0, order_id := 0, omc := "X", product := "P", status := "approved"
    order_type := "s_tax", quantity := 0, s_tax := none, s_tax_alt := none
    date := 0, shareholder := none, s_tax_payment := none, s_tax_payment_alt := none
    s_tax_paid_amount := none, s_tax_paid_at := none, s_tax_reference := none
    s_tax_paid_by := none, total_returns := none, returns_total := none, margin := none }

/-! ## Claims -/

/-- C4: for every order, both implementations of the tax due calculator equal
`round(rate_per_unit × quantity, 2)` where the rate is the first non-null of
the two field spellings, and the due is 0 (not an error) when neither spelling
is present. -/
theorem tax_due_formula (o : Order) :
    orderStaxDue o = round2 (staxRateSpec o * o.quantity) ∧
    orderDue o = round2 (staxRateSpec o * o.quantity) ∧
    (o.s_tax = none → o.s_tax_alt = none → orderStaxDue o = 0) := by
  have hps : staxPerL o = staxRateSpec o := by
    unfold staxPerL staxRateSpec
    rcases h1 : o.s_tax with _ | v <;> rcases h2 : o.s_tax_alt with _ | w <;> simp
  refine ⟨?_, ?_, ?_⟩
  · unfold orderStaxDue
    rw [hps, mul_comm]
  · unfold orderDue
    rw [hps]
  · intro h1 h2
    unfold orderStaxDue
    rw [hps]
    unfold staxRateSpec
    rw [h1, h2]
    simp [round2_zero]

/-- C4 witness: the formula and the neither-spelling-present case at a concrete
order. -/
theorem tax_due_formula_witness :
    orderStaxDue baseOrder = round2 (staxRateSpec baseOrder * baseOrder.quantity) ∧
    orderStaxDue baseOrder = 0 :=
  ⟨(tax_due_formula baseOrder).1, (tax_due_formula baseOrder).2.2 rfl rfl⟩

/-- C7 (code bug): with a stored `shared_tax` document whose NPA component and
NPA/Life rates are both absent, `derive_rates_for_product` yields 0 for both —
not `max(total_tax - gra_tax, 0)` — because `load_shared_tax` coerces every
absent rate to `0.0` through `_f`, so the `is None` fallback guards can never
fire.  Here `total=5, gra=2`: the documented fallback would give `3`, the code
gives `0`. -/
theorem derive_rates_absent_component_yields_zero :
    derive_rates_for_product none
        (some { total_tax := some 5, gra_tax := some 2,
                npa_life_tax := none, npa_component_tax := none }) =
      (5, 2, 0, 0) ∧
    max ((5:ℚ) - 2) 0 = 3 := by
  constructor
  · rfl
  · norm_num

/-- Fixture for C2: the newer order (Jan 5) stored first, the older (Jan 1)
second, both with remaining 100. -/
def ordJan1 : Order :=
  { baseOrder with
      oid := 1
      order_id := 101
      quantity := 100
      s_tax := some 1
      date := 20240101 }

/-- See `ordJan1`. -/
def ordJan5 : Order :=
  { baseOrder with
      oid := 2
      order_id := 102
      quantity := 100
      s_tax := some 1
      date := 20240105 }

/-- See `ordJan1`. -/
def stTwoOrders : DBState := ⟨[ordJan5, ordJan1], []⟩

/-- C2: allocating 150 against two outstanding orders of 100 each dated
2024-01-01 and 2024-01-05 (stored newest first) fully covers the January-1
order (100 applied, remaining 0) before the January-5 order receives the
remaining 50. -/
theorem alloc_oldest_first_scenario :
    (pay_omc_from_bank stTwoOrders 7 "X" 150 "" "" 0).2 =
      .ok [⟨101, 100, 0⟩, ⟨102, 50, 50⟩] := by
  norm_num +decide [pay_omc_from_bank, totalOutstanding, allocList, sortByDate,
    calcRemaining, orderDue, staxPerL, paidSumForOrder, eligibleBank, allocLoop,
    allocStepState, allocStepRec, allocStepRemaining,
    updAfterAlloc, stTwoOrders, ordJan1, ordJan5, baseOrder, round2, roundHE,
    List.insertionSort, List.orderedInsert, staxTypeMatch, matchTax, isSepChar,
    min_def, max_def]

/-- Fixture for C6: quantity 1000 at 0.50 per unit, due 500.00. -/
def ordDue500 : Order :=
  { baseOrder with oid := 1, order_id := 201, quantity := 1000, s_tax := some (1/2) }

/-- See `ordDue500`. -/
def stDue500 : DBState := ⟨[ordDue500], []⟩

/-- C6: on an order with due 500.00, paying exactly 500.00 succeeds and sets
the payment status to `"paid"`; paying 499.99 is rejected citing the due
amount with no state change; paying 600.00 (overpayment) succeeds and also
sets the status to `"paid"`. -/
theorem single_order_payment_scenario :
    orderStaxDue ordDue500 = 500 ∧
    (pay_stax stDue500 1 500 "" "" 0).2 = .ok () ∧
    ((pay_stax stDue500 1 500 "" "" 0).1.orders.map Order.s_tax_payment) = [some "paid"] ∧
    pay_stax stDue500 1 (49999/100) "" "" 0 = (stDue500, .error (.belowDue 500)) ∧
    (pay_stax stDue500 1 600 "" "" 0).2 = .ok () ∧
    ((pay_stax stDue500 1 600 "" "" 0).1.orders.map Order.s_tax_payment) = [some "paid"] := by
  norm_num +decide [pay_stax, updAfterStax, isPaidOrder, optStatusPaid, lowerStr,
    orderStaxDue, staxPerL, ordDue500, stDue500, baseOrder, round2, roundHE,
    List.find?]

/-- C3: when the requested amount exceeds the OMC's (positive) total
outstanding, the allocation is rejected with an error carrying that total
outstanding, and the database state is returned unchanged — no TaxRecord is
inserted and no order is updated, since the validation gate precedes the
allocation loop. -/
theorem alloc_rejects_when_amount_exceeds_outstanding
    (st : DBState) (bank : ℕ) (omc : String) (amount : ℚ) (ref paidBy : String)
    (payDt : ℕ) (homc : ¬ omc = "") (hpos : 0 < amount)
    (hout : 0 < totalOutstanding st omc) (hgt : totalOutstanding st omc < amount) :
    pay_omc_from_bank st bank omc amount ref paidBy payDt =
      (st, .error (.exceedsOutstanding (totalOutstanding st omc))) := by
  unfold pay_omc_from_bank
  rw [if_neg (by simp [homc]), if_neg (not_le.mpr hpos), if_neg (not_le.mpr hout),
    if_pos hgt]

/-- C3 witness: a bank payment of 1000 against an OMC whose single order has
100 outstanding is rejected, names the 100, and leaves the state unchanged. -/
theorem alloc_rejects_witness :
    ¬ "X" = "" ∧ (0:ℚ) < 1000 ∧
    0 < totalOutstanding ⟨[ordJan1], []⟩ "X" ∧
    totalOutstanding ⟨[ordJan1], []⟩ "X" < 1000 ∧
    pay_omc_from_bank ⟨[ordJan1], []⟩ 7 "X" 1000 "" "" 0 =
      (⟨[ordJan1], []⟩, .error (.exceedsOutstanding (totalOutstanding ⟨[ordJan1], []⟩ "X"))) := by
  have htot : totalOutstanding ⟨[ordJan1], []⟩ "X" = 100 := by
    norm_num +decide [totalOutstanding, allocList, sortByDate, calcRemaining,
      orderDue, staxPerL, paidSumForOrder, eligibleBank, ordJan1, baseOrder,
      round2, roundHE, List.insertionSort, List.orderedInsert, max_def]
  refine ⟨by decide, by norm_num, ?_, ?_, ?_⟩
  · rw [htot]; norm_num
  · rw [htot]; norm_num
  · exact alloc_rejects_when_amount_exceeds_outstanding _ _ _ _ _ _ _
      (by decide) (by norm_num) (by rw [htot]; norm_num) (by rw [htot]; norm_num)

/-- C10: an order that is tax-eligible only by `order_type` (`s_tax` or
`combo`) but carries no rate on either spelling has due 0, and `pay_stax`
accepts any positive amount for it (the `amount < due` rejection cannot fire)
and marks it paid. -/
theorem type_eligible_zero_rate_payment
    (st : DBState) (oid : ℕ) (o : Order) (amount : ℚ) (ref paidBy : String)
    (payDt : ℕ) (hfind : st.orders.find? (fun x => x.oid == oid) = some o)
    (htype : o.order_type = "s_tax" ∨ o.order_type = "combo")
    (hs1 : o.s_tax = none) (hs2 : o.s_tax_alt = none)
    (hnp : isPaidOrder o = false) (hpos : 0 < amount) :
    orderStaxDue o = 0 ∧
    (pay_stax st oid amount ref paidBy payDt).2 = .ok () ∧
    ∀ x ∈ (pay_stax st oid amount ref paidBy payDt).1.orders,
      x.oid = oid → isPaidOrder x = true := by
  have hrate : staxPerL o = 0 := by unfold staxPerL; rw [hs1, hs2]
  have hdue : orderStaxDue o = 0 := by
    unfold orderStaxDue; rw [hrate, mul_zero, round2_zero]
  have htypeB : (lowerStr o.order_type == "s_tax" || lowerStr o.order_type == "combo") = true := by
    rcases htype with h | h <;> rw [h] <;> decide
  have hpay : pay_stax st oid amount ref paidBy payDt =
      ( { orders := st.orders.map fun x =>
            if x.oid == oid then updAfterStax amount ref paidBy payDt x else x
          taxRecords := st.taxRecords ++
            [{ type := "S-Tax", amount := round2 amount, payment_date := payDt
               reference := if ref == "" then none else some ref
               paid_by := if paidBy == "" then none else some paidBy
               omc := some o.omc, order_id := some o.order_id
               order_oid := some (OidVal.oid oid), source_bank_id := none }] },
        .ok () ) := by
    unfold pay_stax
    rw [hfind]
    simp only [htypeB, hnp, Bool.true_or, Bool.not_true, Bool.false_eq_true, if_false,
      Bool.or_true]
    rw [if_neg (not_le.mpr hpos), if_neg (by rw [hdue]; exact not_lt.mpr (le_of_lt hpos))]
  refine ⟨hdue, by rw [hpay], ?_⟩
  intro x hx hxoid
  rw [hpay] at hx
  simp only at hx
  obtain ⟨y, _, rfl⟩ := List.mem_map.mp hx
  by_cases hy : (y.oid == oid) = true
  · rw [if_pos hy]
    unfold updAfterStax isPaidOrder optStatusPaid
    simp [lowerStr]
  · rw [if_neg hy] at hxoid ⊢
    exact absurd (beq_iff_eq.mpr hxoid) hy

/-- C10 witness: type-eligible combo order without a rate, paid 7.50. -/
theorem type_eligible_zero_rate_witness :
    ([{ baseOrder with order_type := "combo", oid := 1 }] : List Order).find?
        (fun x => x.oid == 1) = some { baseOrder with order_type := "combo", oid := 1 } ∧
    orderStaxDue { baseOrder with order_type := "combo", oid := 1 } = 0 ∧
    (pay_stax ⟨[{ baseOrder with order_type := "combo", oid := 1 }], []⟩ 1 (15/2) "" "" 0).2 =
      .ok () := by
  have h := type_eligible_zero_rate_payment
    ⟨[{ baseOrder with order_type := "combo", oid := 1 }], []⟩ 1
    { baseOrder with order_type := "combo", oid := 1 } (15/2) "" "" 0
    (by decide) (Or.inr rfl) rfl rfl (by decide) (by norm_num)
  exact ⟨by decide, h.1, h.2.1⟩

/-! ## C5: regex characterization and the typed/string reference mismatch -/

theorem matchTax_eq_true_iff (cs : List Char) :
    matchTax cs = true ↔
      ∃ t a x : Char, cs = [t, a, x] ∧ (t = 't' ∨ t = 'T') ∧ (a = 'a' ∨ a = 'A') ∧
        (x = 'x' ∨ x = 'X') := by
  constructor
  · intro h
    rcases cs with _ | ⟨t, cs2⟩
    · exact absurd h (by simp [matchTax])
    rcases cs2 with _ | ⟨a, cs3⟩
    · exact absurd h (by simp [matchTax])
    rcases cs3 with _ | ⟨x, cs4⟩
    · exact absurd h (by simp [matchTax])
    rcases cs4 with _ | ⟨y, rest⟩
    · refine ⟨t, a, x, rfl, ?_⟩
      simpa [matchTax, Bool.or_eq_true, beq_iff_eq, and_assoc] using h
    · exact absurd h (by simp [matchTax])
  · rintro ⟨t, a, x, rfl, ht, ha, hx⟩
    rcases ht with rfl | rfl <;> rcases ha with rfl | rfl <;> rcases hx with rfl | rfl <;>
      decide

theorem dropWhile_append_sep (seps tail : List Char)
    (h : ∀ c ∈ seps, isSepChar c = true) :
    (seps ++ tail).dropWhile isSepChar = tail.dropWhile isSepChar := by
  induction seps with
  | nil => simp
  | cons c cs ih =>
    rw [List.cons_append, List.dropWhile_cons, if_pos (h c (List.mem_cons_self c cs))]
    exact ih fun d hd => h d (List.mem_cons_of_mem c hd)

/-- The code's regex matcher agrees with the declarative decomposition. -/
theorem staxTypeMatch_iff (s : String) : staxTypeMatch s = true ↔ SpecTypePred s := by
  unfold staxTypeMatch SpecTypePred
  rcases hdata : s.data with _ | ⟨c, rest⟩
  · simp
  · constructor
    · intro h
      obtain ⟨hc, hm⟩ := Bool.and_eq_true_iff.mp h
      obtain ⟨t, a, x, hdrop, ht, ha, hx⟩ := (matchTax_eq_true_iff _).mp hm
      refine ⟨c, t, a, x, rest.takeWhile isSepChar, ?_, ?_, ?_, ht, ha, hx⟩
      · rw [← hdrop, List.takeWhile_append_dropWhile]
      · simpa [Bool.or_eq_true, beq_iff_eq] using hc
      · intro d hd
        exact List.mem_takeWhile_imp hd
    · rintro ⟨c0, t, a, x, seps, heq, hc0, hseps, ht, ha, hx⟩
      obtain ⟨rfl, rfl⟩ : c = c0 ∧ rest = seps ++ [t, a, x] := by
        injection heq with h1 h2
        exact ⟨h1, h2⟩
      rw [Bool.and_eq_true]
      constructor
      · rcases hc0 with rfl | rfl <;> decide
      · rw [dropWhile_append_sep _ _ hseps, List.dropWhile_cons,
          if_neg (by rcases ht with rfl | rfl <;> decide)]
        exact (matchTax_eq_true_iff _).mpr ⟨t, a, x, rfl, ht, ha, hx⟩

instance : DecidablePred SpecTypePred := fun s =>
  decidable_of_iff _ (staxTypeMatch_iff s)

/-- C5 (amended): the paid-total aggregation sums exactly those TaxRecords
whose `order_oid` equals the order's typed identifier — the string form is NOT
queried — and whose `type` decomposes, case-insensitively, as `s`, a possibly
empty run of whitespace/underscore/hyphen separators, then `tax`. -/
theorem paid_sum_characterization (recs : List TaxRecord) (d : ℕ) :
    paidSumForOrder recs d =
      ((recs.filter fun r =>
          decide (r.order_oid = some (OidVal.oid d) ∧ SpecTypePred r.type)).map
        TaxRecord.amount).sum := by
  unfold paidSumForOrder
  have : (recs.filter fun r => (r.order_oid == some (OidVal.oid d)) && staxTypeMatch r.type) =
      recs.filter fun r => decide (r.order_oid = some (OidVal.oid d) ∧ SpecTypePred r.type) := by
    apply List.filter_congr
    intro r _
    rw [Bool.eq_iff_iff]
    simp only [Bool.and_eq_true, beq_iff_eq, decide_eq_true_eq, staxTypeMatch_iff]
  rw [this]

/-- C5 counterexample fixture: a record whose order reference is stored as the
string serialization of the order's id. -/
def strFormRec : TaxRecord :=
  { type := "S-Tax", amount := 5, payment_date := 0, reference := none
    paid_by := none, omc := none, order_id := none
    order_oid := some (OidVal.str 1), source_bank_id := none }

/-- C5 counterexample: the aggregator of `bank_profile._paid_sum_for_order`
misses a record whose reference is stored in string form, while an aggregator
that queries both representations (as the claim describes) would count it. -/
theorem paid_sum_ignores_string_form_refs :
    paidSumForOrder [strFormRec] 1 = 0 ∧ paidSumSpec [strFormRec] 1 = 5 ∧
    ¬ paidSumForOrder [strFormRec] 1 = paidSumSpec [strFormRec] 1 := by
  refine ⟨?_, ?_, ?_⟩ <;>
    norm_num +decide [paidSumForOrder, paidSumSpec, strFormRec, staxTypeMatch,
      matchTax, isSepChar]

/-! ## C1: conservation of the allocated amount -/

theorem allocLoop_remaining_nonneg (bank : ℕ) (omc ref paidBy : String) (payDt : ℕ) :
    ∀ (items : List (Order × ℚ)) (st : DBState) (left : ℚ),
      ∀ e ∈ (allocLoop bank omc ref paidBy payDt items st left).2,
        0 ≤ e.remaining_after := by
  intro items
  induction items with
  | nil => intro st left e he; simp [allocLoop] at he
  | cons p rest ih =>
    obtain ⟨o, rem⟩ := p
    intro st left e he
    by_cases hl : left ≤ 0
    · simp [allocLoop, if_pos hl] at he
    · simp only [allocLoop, if_neg hl] at he
      rcases List.mem_cons.mp he with rfl | hrec
      · simp only [allocStepRemaining]
        exact le_max_left 0 _
      · exact ih _ _ e hrec

theorem allocLoop_applied_sum (bank : ℕ) (omc ref paidBy : String) (payDt : ℕ) :
    ∀ (items : List (Order × ℚ)) (st : DBState) (left : ℚ),
      Cent left → 0 ≤ left → left ≤ (items.map Prod.snd).sum →
      (∀ p ∈ items, Cent p.2 ∧ 0 < p.2) →
      ((allocLoop bank omc ref paidBy payDt items st left).2.map
        AllocEntry.applied).sum = left := by
  intro items
  induction items with
  | nil =>
    intro st left _ h0 hle _
    simp only [allocLoop, List.map_nil, List.sum_nil] at hle ⊢
    linarith
  | cons p rest ih =>
    obtain ⟨o, rem⟩ := p
    intro st left hc h0 hle hall
    by_cases hl : left ≤ 0
    · have h00 : left = 0 := le_antisymm hl h0
      simp [allocLoop, if_pos hl, h00]
    · push_neg at hl
      simp only [allocLoop, if_neg (not_le.mpr hl), List.map_cons, List.sum_cons]
      obtain ⟨hcr, hrp⟩ := hall (o, rem) (List.mem_cons_self _ _)
      have hport : Cent (min left rem) := cent_min hc hcr
      have hr2 : round2 (min left rem) = min left rem := round2_eq_self hport
      have hleft2 : round2 (left - min left rem) = left - min left rem :=
        round2_eq_self (cent_sub hc hport)
      have hsumrest : 0 ≤ (rest.map Prod.snd).sum := by
        apply List.sum_nonneg
        intro q hq
        obtain ⟨pp, hpp, rfl⟩ := List.mem_map.mp hq
        exact le_of_lt (hall pp (List.mem_cons_of_mem _ hpp)).2
      have hle' : left ≤ rem + (rest.map Prod.snd).sum := by
        simpa [List.map_cons, List.sum_cons] using hle
      have hcent' : Cent (round2 (left - min left rem)) := cent_round2 _
      have h0' : 0 ≤ round2 (left - min left rem) := by
        rw [hleft2]
        exact sub_nonneg.mpr (min_le_left left rem)
      have hle'' : round2 (left - min left rem) ≤ (rest.map Prod.snd).sum := by
        rw [hleft2]
        rcases le_total left rem with h | h
        · rw [min_eq_left h]; linarith
        · rw [min_eq_right h]; linarith
      have hall' : ∀ p ∈ rest, Cent p.2 ∧ 0 < p.2 :=
        fun q hq => hall q (List.mem_cons_of_mem _ hq)
      rw [ih _ (round2 (left - min left rem)) hcent' h0' hle'' hall', hr2, hleft2]
      ring

/-- Every member of `alloc_list` is an order of the state with its (two-decimal,
positive) remaining balance. -/
theorem allocList_mem {st : DBState} {omc : String} {p : Order × ℚ}
    (hp : p ∈ allocList st omc) :
    p.1 ∈ st.orders ∧ p.2 = calcRemaining st.taxRecords p.1 ∧ 0 < p.2 ∧ Cent p.2 := by
  unfold allocList at hp
  obtain ⟨hmem, hpos⟩ := List.mem_filter.mp hp
  obtain ⟨o, ho, rfl⟩ := List.mem_map.mp hmem
  have hOrd : o ∈ st.orders.filter (eligibleBank omc) :=
    (List.Perm.mem_iff (List.perm_insertionSort _ _)).mp ho
  refine ⟨List.mem_of_mem_filter hOrd, rfl, by simpa using hpos, ?_⟩
  unfold calcRemaining
  exact cent_max cent_zero (cent_round2 _)

/-- C1 (amended): for every successful bank-payment allocation whose amount is
a whole number of cents (a two-decimal value — true of any actual GHS amount),
the applied amounts across the returned allocations sum to exactly the payment
amount, and every order's `remaining_after` is non-negative (the latter holds
for arbitrary amounts). -/
theorem alloc_sum_applied (st : DBState) (bank : ℕ) (omc : String) (amount : ℚ)
    (ref paidBy : String) (payDt : ℕ) (entries : List AllocEntry)
    (hcent : Cent amount)
    (hok : (pay_omc_from_bank st bank omc amount ref paidBy payDt).2 = .ok entries) :
    (entries.map AllocEntry.applied).sum = amount ∧
    ∀ e ∈ entries, 0 ≤ e.remaining_after := by
  unfold pay_omc_from_bank at hok
  by_cases h1 : (omc == "") = true
  · rw [if_pos h1] at hok; exact absurd hok (by simp)
  rw [if_neg h1] at hok
  by_cases h2 : amount ≤ 0
  · rw [if_pos h2] at hok; exact absurd hok (by simp)
  rw [if_neg h2] at hok
  simp only at hok
  by_cases h3 : totalOutstanding st omc ≤ 0
  · rw [if_pos h3] at hok; exact absurd hok (by simp)
  rw [if_neg h3] at hok
  by_cases h4 : totalOutstanding st omc < amount
  · rw [if_pos h4] at hok; exact absurd hok (by simp)
  rw [if_neg h4] at hok
  have hent : entries =
      (allocLoop bank omc ref paidBy payDt (allocList st omc) st amount).2 := by
    simpa using hok.symm
  subst hent
  constructor
  · apply allocLoop_applied_sum
    · exact hcent
    · exact le_of_lt (not_le.mp h2)
    · exact not_lt.mp h4
    · intro p hp
      have h := allocList_mem hp
      exact ⟨h.2.2.2, h.2.2.1⟩
  · exact allocLoop_remaining_nonneg bank omc ref paidBy payDt _ st amount

/-- C1 witness: a 60.00 payment against a single 100-due order allocates
exactly 60 with remaining 40. -/
theorem alloc_sum_applied_witness :
    Cent 60 ∧
    (pay_omc_from_bank ⟨[ordJan1], []⟩ 7 "X" 60 "" "" 0).2 = .ok [⟨101, 60, 40⟩] ∧
    (([⟨101, 60, 40⟩] : List AllocEntry).map AllocEntry.applied).sum = 60 ∧
    ∀ e ∈ ([⟨101, 60, 40⟩] : List AllocEntry), 0 ≤ e.remaining_after := by
  have heval : (pay_omc_from_bank ⟨[ordJan1], []⟩ 7 "X" 60 "" "" 0).2 =
      .ok [⟨101, 60, 40⟩] := by
    norm_num +decide [pay_omc_from_bank, totalOutstanding, allocList, sortByDate,
      calcRemaining, orderDue, staxPerL, paidSumForOrder, eligibleBank, allocLoop,
      allocStepState, allocStepRec, allocStepRemaining,
      updAfterAlloc, ordJan1, baseOrder, round2, roundHE, List.insertionSort,
      List.orderedInsert, staxTypeMatch, matchTax, isSepChar, min_def, max_def]
  have hc : Cent 60 := ⟨6000, by norm_num⟩
  have h := alloc_sum_applied ⟨[ordJan1], []⟩ 7 "X" 60 "" "" 0 [⟨101, 60, 40⟩] hc heval
  exact ⟨hc, heval, h.1, h.2⟩

/-- C1 counterexample: as stated for arbitrary positive amounts the claim is
false — a bank payment of 0.005 (positive, below the 100 outstanding) succeeds
but each applied amount is rounded to 2 decimals, so the applied sum is 0, not
0.005. -/
theorem alloc_sum_applied_fractional_counterexample :
    (pay_omc_from_bank ⟨[ordJan1], []⟩ 7 "X" (1/200) "" "" 0).2 =
      .ok [⟨101, 0, 100⟩] ∧
    ¬ (([⟨101, 0, 100⟩] : List AllocEntry).map AllocEntry.applied).sum = 1/200 := by
  constructor
  · norm_num +decide [pay_omc_from_bank, totalOutstanding, allocList, sortByDate,
      calcRemaining, orderDue, staxPerL, paidSumForOrder, eligibleBank, allocLoop,
      allocStepState, allocStepRec, allocStepRemaining,
      updAfterAlloc, ordJan1, baseOrder, round2, roundHE, List.insertionSort,
      List.orderedInsert, staxTypeMatch, matchTax, isSepChar, min_def, max_def]
  · norm_num

/-! ## C8: shareholder split total vs. the NPA-component amount -/

theorem split_bound_arith (n V : ℚ) :
    |round2 (round4 (n * (35/100)) * V) + (round2 (round4 (n * (35/100)) * V) +
      (round2 (round4 (n * (30/100)) * V) + 0)) - round2 (n * V)| ≤
      1/50 + 3/20000 * |V| := by
  have b1 := round2_abs_sub (round4 (n * (35/100)) * V)
  have b2 := round2_abs_sub (round4 (n * (30/100)) * V)
  have b3 := round2_abs_sub (n * V)
  have d1 : |round4 (n * (35/100)) * V - n * (35/100) * V| ≤ 1/20000 * |V| := by
    rw [← sub_mul, abs_mul]
    exact mul_le_mul_of_nonneg_right (round4_abs_sub (n * (35/100))) (abs_nonneg V)
  have d2 : |round4 (n * (30/100)) * V - n * (30/100) * V| ≤ 1/20000 * |V| := by
    rw [← sub_mul, abs_mul]
    exact mul_le_mul_of_nonneg_right (round4_abs_sub (n * (30/100))) (abs_nonneg V)
  have hBsum : n * (35/100) * V + n * (35/100) * V + n * (30/100) * V = n * V := by
    ring
  have hW : 0 ≤ |V| := abs_nonneg V
  rw [abs_le] at b1 b2 b3 d1 d2 ⊢
  constructor <;> linarith

/-- C8: in a per-product breakdown, `volume_main` is the summed (rounded)
quantity over exactly the period's approved orders of the product not tagged
with the sentinel shareholder `"neutral"`, and with the configured share
fractions summing to 1 the shareholder split amounts sum to
`round2(npa_component_rate × volume)` up to the tolerance the code's
4-decimal rate rounding and 2-decimal amount rounding induce. -/
theorem shareholder_split_total_bound (overrides : Option (ℚ × ℚ × ℚ × ℚ))
    (doc : Option SharedTaxDoc) (st : DBState) (product : String) (start endEx : ℕ)
    (hsum : (SHARE_SPLIT.map Prod.snd).sum = 1) :
    (build_tax_breakdown_for_product overrides doc st product start endEx).volume_main =
      ((fetch_orders_for_tax st product start endEx).1.map
        (fun o => roundHE o.quantity)).sum ∧
    |(((build_tax_breakdown_for_product overrides doc st product start
          endEx).split_rows.map SplitRow.amount).sum) -
        round2 ((derive_rates_for_product overrides doc).2.2.2 *
          ((build_tax_breakdown_for_product overrides doc st product start
            endEx).volume_main : ℚ))| ≤
      1/50 + 3/20000 *
        |((build_tax_breakdown_for_product overrides doc st product start
          endEx).volume_main : ℚ)| := by
  constructor
  · rfl
  · simp only [build_tax_breakdown_for_product, SHARE_SPLIT, List.map_cons,
      List.map_nil, List.sum_cons, List.sum_nil]
    exact split_bound_arith _ _

/-- C8 witness: the share fractions do sum to 1, and the bound holds at a
concrete instantiation. -/
theorem shareholder_split_total_bound_witness :
    (SHARE_SPLIT.map Prod.snd).sum = 1 ∧
    ((build_tax_breakdown_for_product none none ⟨[], []⟩ "P" 0 1).volume_main =
      ((fetch_orders_for_tax ⟨[], []⟩ "P" 0 1).1.map
        (fun o => roundHE o.quantity)).sum ∧
    |(((build_tax_breakdown_for_product none none ⟨[], []⟩ "P" 0
          1).split_rows.map SplitRow.amount).sum) -
        round2 ((derive_rates_for_product none none).2.2.2 *
          ((build_tax_breakdown_for_product none none ⟨[], []⟩ "P" 0
            1).volume_main : ℚ))| ≤
      1/50 + 3/20000 *
        |((build_tax_breakdown_for_product none none ⟨[], []⟩ "P" 0
          1).volume_main : ℚ)|) := by
  have hsum : (SHARE_SPLIT.map Prod.snd).sum = 1 := by
    norm_num [SHARE_SPLIT]
  exact ⟨hsum, shareholder_split_total_bound none none ⟨[], []⟩ "P" 0 1 hsum⟩

/-! ## C9: forward-only status transitions -/

/-- One order evolved monotonically: same id, non-decreasing status rank, and
paid stays paid. -/
def OrderMono (o o' : Order) : Prop :=
  o'.oid = o.oid ∧ rankOf o ≤ rankOf o' ∧ (isPaidOrder o = true → isPaidOrder o' = true)

theorem orderMono_refl (o : Order) : OrderMono o o := ⟨rfl, le_refl _, fun h => h⟩

theorem orderMono_trans {a b c : Order} (h1 : OrderMono a b) (h2 : OrderMono b c) :
    OrderMono a c :=
  ⟨h2.1.trans h1.1, h1.2.1.trans h2.2.1, fun h => h2.2.2 (h1.2.2 h)⟩

theorem forall₂_mono_refl (l : List Order) : List.Forall₂ OrderMono l l := by
  induction l with
  | nil => exact List.Forall₂.nil
  | cons a l ih => exact List.Forall₂.cons (orderMono_refl a) ih

theorem forall₂_mono_trans : ∀ {a b c : List Order},
    List.Forall₂ OrderMono a b → List.Forall₂ OrderMono b c →
    List.Forall₂ OrderMono a c := by
  intro a b c h1
  induction h1 generalizing c with
  | nil => intro h2; cases h2; exact List.Forall₂.nil
  | cons hab h1 ih =>
    intro h2
    cases h2 with
    | cons hbc h2 => exact List.Forall₂.cons (orderMono_trans hab hbc) (ih h2)

theorem forall₂_mono_map {l : List Order} {f : Order → Order}
    (h : ∀ x ∈ l, OrderMono x (f x)) : List.Forall₂ OrderMono l (l.map f) := by
  induction l with
  | nil => exact List.Forall₂.nil
  | cons a l ih =>
    exact List.Forall₂.cons (h a (List.mem_cons_self a l))
      (ih fun x hx => h x (List.mem_cons_of_mem a hx))

/-- Paid-sum additivity over a single appended record. -/
theorem paidSum_append (recs : List TaxRecord) (r : TaxRecord) (d : ℕ) :
    paidSumForOrder (recs ++ [r]) d =
      paidSumForOrder recs d +
        (if (r.order_oid == some (OidVal.oid d)) && staxTypeMatch r.type then r.amount
         else 0) := by
  unfold paidSumForOrder
  rw [List.filter_append, List.map_append, List.sum_append]
  by_cases h : ((r.order_oid == some (OidVal.oid d)) && staxTypeMatch r.type) = true
  · rw [if_pos h]
    simp [List.filter, h]
  · rw [if_neg h]
    simp only [Bool.not_eq_true] at h
    simp [List.filter, h]

theorem paidSum_nonneg {recs : List TaxRecord} (h : ∀ r ∈ recs, 0 ≤ r.amount)
    (d : ℕ) : 0 ≤ paidSumForOrder recs d := by
  unfold paidSumForOrder
  apply List.sum_nonneg
  intro q hq
  obtain ⟨r, hr, rfl⟩ := List.mem_map.mp hq
  exact h r (List.mem_of_mem_filter hr)

theorem staxTypeMatch_S_Tax : staxTypeMatch "S-Tax" = true := by decide

/-- With unique ids, two orders of the list sharing an id are the same order. -/
theorem nodup_oid_eq {l : List Order} (h : (l.map Order.oid).Nodup) {a b : Order}
    (ha : a ∈ l) (hb : b ∈ l) (hoid : a.oid = b.oid) : a = b := by
  induction l with
  | nil => cases ha
  | cons x l ih =>
    rw [List.map_cons, List.nodup_cons] at h
    rcases List.mem_cons.mp ha with rfl | ha' <;> rcases List.mem_cons.mp hb with rfl | hb'
    · rfl
    · exact absurd (hoid ▸ List.mem_map_of_mem Order.oid hb') h.1
    · exact absurd (hoid ▸ List.mem_map_of_mem Order.oid ha') h.1
    · exact ih h.2 ha' hb'

theorem map_oid_map_preserve {l : List Order} {f : Order → Order}
    (hf : ∀ x, (f x).oid = x.oid) : (l.map f).map Order.oid = l.map Order.oid := by
  induction l with
  | nil => rfl
  | cons a l ih => simp [hf a, ih]

theorem updAfterAlloc_oid (ref paidBy : String) (payDt : ℕ) (newPaid remaining : ℚ)
    (x : Order) : (updAfterAlloc ref paidBy payDt newPaid remaining x).oid = x.oid := rfl

theorem updAfterStax_oid (amount : ℚ) (ref paidBy : String) (payDt : ℕ) (x : Order) :
    (updAfterStax amount ref paidBy payDt x).oid = x.oid := rfl

theorem orderDue_updAfterAlloc (ref paidBy : String) (payDt : ℕ)
    (newPaid remaining : ℚ) (x : Order) :
    orderDue (updAfterAlloc ref paidBy payDt newPaid remaining x) = orderDue x := rfl

theorem isPaidOrder_updAfterStax (amount : ℚ) (ref paidBy : String) (payDt : ℕ)
    (x : Order) : isPaidOrder (updAfterStax amount ref paidBy payDt x) = true := by
  unfold updAfterStax isPaidOrder optStatusPaid
  simp [lowerStr]

theorem rankOf_updAfterAlloc_ge_one (ref paidBy : String) (payDt : ℕ)
    (newPaid remaining : ℚ) (x : Order) :
    1 ≤ rankOf (updAfterAlloc ref paidBy payDt newPaid remaining x) := by
  unfold updAfterAlloc rankOf isPaidOrder isMidOrder optStatusPaid optStatusMid
  by_cases h : remaining ≤ 0 <;> simp [h, lowerStr]

theorem isPaidOrder_updAfterAlloc_iff (ref paidBy : String) (payDt : ℕ)
    (newPaid remaining : ℚ) (x : Order) :
    isPaidOrder (updAfterAlloc ref paidBy payDt newPaid remaining x) = true ↔
      remaining ≤ 0 := by
  unfold updAfterAlloc isPaidOrder optStatusPaid
  by_cases h : remaining ≤ 0 <;> simp [h, lowerStr]

theorem calcRemaining_append_other {recs : List TaxRecord} {r : TaxRecord}
    {o : Order} (h : (r.order_oid == some (OidVal.oid o.oid)) = false) :
    calcRemaining (recs ++ [r]) o = calcRemaining recs o := by
  unfold calcRemaining
  rw [paidSum_append]
  simp [h]

theorem rankOf_le_one_of_not_paid {x : Order} (h : isPaidOrder x = false) :
    rankOf x ≤ 1 := by
  unfold rankOf
  rw [h]
  simp only [Bool.false_eq_true, if_false]
  split <;> omega

/-- Master lemma for the allocation loop: starting from a well-formed state and
an allocation list of distinct, not-yet-paid orders with positive remaining,
the loop preserves well-formedness and evolves every order monotonically. -/
theorem allocLoop_inv_mono (bank : ℕ) (omc ref paidBy : String) (payDt : ℕ) :
    ∀ (items : List (Order × ℚ)) (st : DBState) (left : ℚ),
      (∀ r ∈ st.taxRecords, 0 ≤ r.amount) →
      (∀ x ∈ st.orders, isPaidOrder x = true → calcRemaining st.taxRecords x = 0) →
      ((st.orders.map Order.oid).Nodup) →
      (∀ p ∈ items, p.1 ∈ st.orders ∧ isPaidOrder p.1 = false ∧ 0 < p.2) →
      ((items.map fun p => p.1.oid).Nodup) →
      Inv (allocLoop bank omc ref paidBy payDt items st left).1 ∧
      List.Forall₂ OrderMono st.orders
        (allocLoop bank omc ref paidBy payDt items st left).1.orders := by
  intro items
  induction items with
  | nil =>
    intro st left hrecs hinv2 hnodup _ _
    exact ⟨⟨hrecs, hinv2, hnodup⟩, forall₂_mono_refl st.orders⟩
  | cons p rest ih =>
    obtain ⟨o, rem⟩ := p
    intro st left hrecs hinv2 hnodup hitems hitemsnodup
    by_cases hl : left ≤ 0
    · simp only [allocLoop, if_pos hl]
      exact ⟨⟨hrecs, hinv2, hnodup⟩, forall₂_mono_refl st.orders⟩
    · push_neg at hl
      simp only [allocLoop, if_neg (not_le.mpr hl)]
      obtain ⟨homem, hopaid, hrem⟩ := hitems (o, rem) (List.mem_cons_self _ _)
      have hoeq : ∀ x ∈ st.orders, (x.oid == o.oid) = true → x = o := fun x hx hb =>
        nodup_oid_eq hnodup hx homem (beq_iff_eq.mp hb)
      have hfoid : ∀ x : Order,
          ((if x.oid == o.oid then
              updAfterAlloc ref paidBy payDt
                (paidSumForOrder (st.taxRecords ++
                  [allocStepRec bank omc ref paidBy payDt o (min left rem)]) o.oid)
                (allocStepRemaining bank omc ref paidBy payDt o rem left st) x
            else x)).oid = x.oid := by
        intro x
        by_cases h : (x.oid == o.oid) = true <;> simp [h, updAfterAlloc_oid]
      -- facts about the step state
      have hordeq : (allocStepState bank omc ref paidBy payDt o rem left st).orders =
          st.orders.map fun x =>
            if x.oid == o.oid then
              updAfterAlloc ref paidBy payDt
                (paidSumForOrder (st.taxRecords ++
                  [allocStepRec bank omc ref paidBy payDt o (min left rem)]) o.oid)
                (allocStepRemaining bank omc ref paidBy payDt o rem left st) x
            else x := rfl
      have hreceq : (allocStepState bank omc ref paidBy payDt o rem left st).taxRecords =
          st.taxRecords ++ [allocStepRec bank omc ref paidBy payDt o (min left rem)] := rfl
      have hrecs2 : ∀ r ∈ (allocStepState bank omc ref paidBy payDt o rem left st).taxRecords,
          0 ≤ r.amount := by
        rw [hreceq]
        intro r hr
        rcases List.mem_append.mp hr with h | h
        · exact hrecs r h
        · rcases List.mem_singleton.mp h with rfl
          exact round2_nonneg (le_of_lt (lt_min hl hrem))
      have hnodup2 :
          (((allocStepState bank omc ref paidBy payDt o rem left st).orders.map
            Order.oid)).Nodup := by
        rw [hordeq, map_oid_map_preserve hfoid]
        exact hnodup
      have hnomatch : ∀ y : Order, y.oid ≠ o.oid →
          (((allocStepRec bank omc ref paidBy payDt o (min left rem)).order_oid ==
            some (OidVal.oid y.oid)) = false) := by
        intro y hy
        simp [allocStepRec, beq_iff_eq]
        exact fun h => absurd h.symm hy
      have hinv22 : ∀ x ∈ (allocStepState bank omc ref paidBy payDt o rem left st).orders,
          isPaidOrder x = true →
          calcRemaining (allocStepState bank omc ref paidBy payDt o rem left st).taxRecords
            x = 0 := by
        rw [hordeq, hreceq]
        intro x2 hx2 hp2
        obtain ⟨y, hy, rfl⟩ := List.mem_map.mp hx2
        by_cases hyo : (y.oid == o.oid) = true
        · have hyeq : y = o := hoeq y hy hyo
        -- the updated order: its status is paid only when the re-read remaining is 0
          rw [if_pos hyo] at hp2 ⊢
          subst hyeq
          have hrem0 : allocStepRemaining bank omc ref paidBy payDt y rem left st ≤ 0 :=
            (isPaidOrder_updAfterAlloc_iff _ _ _ _ _ _).mp hp2
          have hrem0' : allocStepRemaining bank omc ref paidBy payDt y rem left st = 0 :=
            le_antisymm hrem0 (le_max_left 0 _)
          have hcalc : calcRemaining
              (st.taxRecords ++ [allocStepRec bank omc ref paidBy payDt y (min left rem)])
              (updAfterAlloc ref paidBy payDt
                (paidSumForOrder (st.taxRecords ++
                  [allocStepRec bank omc ref paidBy payDt y (min left rem)]) y.oid)
                (allocStepRemaining bank omc ref paidBy payDt y rem left st) y) =
              allocStepRemaining bank omc ref paidBy payDt y rem left st := rfl
          rw [hcalc, hrem0']
        · rw [if_neg hyo] at hp2 ⊢
          rw [calcRemaining_append_other
            (hnomatch y (fun h => absurd (beq_iff_eq.mpr h) (by simp [hyo])))]
          exact hinv2 y hy hp2
      have hstep : List.Forall₂ OrderMono st.orders
          (allocStepState bank omc ref paidBy payDt o rem left st).orders := by
        rw [hordeq]
        apply forall₂_mono_map
        intro x hx
        by_cases h : (x.oid == o.oid) = true
        · have hxeq : x = o := hoeq x hx h
          rw [if_pos h]
          subst hxeq
          refine ⟨updAfterAlloc_oid _ _ _ _ _ _, ?_, ?_⟩
          · exact le_trans (rankOf_le_one_of_not_paid hopaid)
              (by
                have := rankOf_updAfterAlloc_ge_one ref paidBy payDt
                  (paidSumForOrder (st.taxRecords ++
                    [allocStepRec bank omc ref paidBy payDt x (min left rem)]) x.oid)
                  (allocStepRemaining bank omc ref paidBy payDt x rem left st) x
                exact this)
          · intro hc
            rw [hopaid] at hc
            exact absurd hc (by simp)
        · rw [if_neg h]
          exact orderMono_refl x
      have hitems2 : ∀ p ∈ rest,
          p.1 ∈ (allocStepState bank omc ref paidBy payDt o rem left st).orders ∧
          isPaidOrder p.1 = false ∧ 0 < p.2 := by
        intro p hp
        obtain ⟨hpm, hpp, hppos⟩ := hitems p (List.mem_cons_of_mem _ hp)
        have hpoid : p.1.oid ≠ o.oid := by
          rw [List.map_cons, List.nodup_cons] at hitemsnodup
          intro hcontra
          exact hitemsnodup.1 (hcontra ▸ List.mem_map_of_mem (fun q => q.1.oid) hp)
        refine ⟨?_, hpp, hppos⟩
        rw [hordeq]
        have : (if p.1.oid == o.oid then
            updAfterAlloc ref paidBy payDt
              (paidSumForOrder (st.taxRecords ++
                [allocStepRec bank omc ref paidBy payDt o (min left rem)]) o.oid)
              (allocStepRemaining bank omc ref paidBy payDt o rem left st) p.1
          else p.1) = p.1 := by
          rw [if_neg (by simp [hpoid])]
        exact this ▸ List.mem_map_of_mem _ hpm
      have hitemsnodup2 : ((rest.map fun p => p.1.oid)).Nodup := by
        rw [List.map_cons, List.nodup_cons] at hitemsnodup
        exact hitemsnodup.2
      obtain ⟨hInvF, hmonoF⟩ := ih (allocStepState bank omc ref paidBy payDt o rem left st)
        (round2 (left - min left rem)) hrecs2 hinv22 hnodup2 hitems2 hitemsnodup2
      exact ⟨hInvF, forall₂_mono_trans hstep hmonoF⟩

theorem orderDue_eq_orderStaxDue (o : Order) : orderDue o = orderStaxDue o := by
  unfold orderDue orderStaxDue
  rw [mul_comm]

theorem orderDue_updAfterStax (amount : ℚ) (ref paidBy : String) (payDt : ℕ)
    (x : Order) : orderDue (updAfterStax amount ref paidBy payDt x) = orderDue x := rfl

/-- A single-order payment preserves well-formedness and evolves every order
monotonically. -/
theorem payStax_inv_mono (st : DBState) (oid : ℕ) (amount : ℚ)
    (ref paidBy : String) (payDt : ℕ) (h : Inv st) :
    Inv (pay_stax st oid amount ref paidBy payDt).1 ∧
    List.Forall₂ OrderMono st.orders (pay_stax st oid amount ref paidBy payDt).1.orders := by
  obtain ⟨h1, h2, h3⟩ := h
  unfold pay_stax
  cases hfind : st.orders.find? (fun o => o.oid == oid) with
  | none => exact ⟨⟨h1, h2, h3⟩, forall₂_mono_refl st.orders⟩
  | some o =>
    simp only
    by_cases e1 : (!(lowerStr o.order_type == "s_tax" || lowerStr o.order_type == "combo" ||
        decide (0 < staxPerL o))) = true
    · rw [if_pos e1]; exact ⟨⟨h1, h2, h3⟩, forall₂_mono_refl st.orders⟩
    rw [if_neg e1]
    by_cases e2 : isPaidOrder o = true
    · rw [if_pos e2]; exact ⟨⟨h1, h2, h3⟩, forall₂_mono_refl st.orders⟩
    rw [if_neg e2]
    by_cases e3 : amount ≤ 0
    · rw [if_pos e3]; exact ⟨⟨h1, h2, h3⟩, forall₂_mono_refl st.orders⟩
    rw [if_neg e3]
    by_cases e4 : amount < orderStaxDue o
    · rw [if_pos e4]; exact ⟨⟨h1, h2, h3⟩, forall₂_mono_refl st.orders⟩
    rw [if_neg e4]
    have homem : o ∈ st.orders := List.mem_of_find?_eq_some hfind
    have hpred := List.find?_some hfind
    have hooid : o.oid = oid := by
      simpa [beq_iff_eq] using hpred
    have hopaid : isPaidOrder o = false := Bool.not_eq_true _ ▸ eq_false_of_ne_true e2
    have hamt : 0 < amount := not_le.mp e3
    have hdue : orderStaxDue o ≤ amount := not_lt.mp e4
    have hoeq : ∀ x ∈ st.orders, (x.oid == oid) = true → x = o := fun x hx hb =>
      nodup_oid_eq h3 hx homem ((beq_iff_eq.mp hb).trans hooid.symm)
    have hfoid : ∀ x : Order,
        ((if x.oid == oid then updAfterStax amount ref paidBy payDt x else x)).oid =
          x.oid := by
      intro x
      by_cases hx : (x.oid == oid) = true <;> simp [hx, updAfterStax_oid]
    refine ⟨⟨?_, ?_, ?_⟩, ?_⟩
    · -- record amounts stay non-negative
      intro r hr
      rcases List.mem_append.mp hr with hmem | hmem
      · exact h1 r hmem
      · rcases List.mem_singleton.mp hmem with rfl
        exact round2_nonneg (le_of_lt hamt)
    · -- paid orders remain settled
      intro x2 hx2 hp2
      obtain ⟨y, hy, rfl⟩ := List.mem_map.mp hx2
      by_cases hyo : (y.oid == oid) = true
      · have hyeq : y = o := hoeq y hy hyo
        rw [if_pos hyo] at hp2 ⊢
        subst hyeq
        unfold calcRemaining
        rw [show (updAfterStax amount ref paidBy payDt y).oid = y.oid from rfl,
          orderDue_updAfterStax, hooid, paidSum_append]
        have hmatch : (((some (OidVal.oid oid) : Option OidVal) ==
            some (OidVal.oid oid)) && staxTypeMatch "S-Tax") = true := by
          rw [staxTypeMatch_S_Tax]
          simp
        rw [if_pos hmatch]
        have hps : 0 ≤ paidSumForOrder st.taxRecords oid := paidSum_nonneg h1 oid
        have hr2 : orderStaxDue y ≤ round2 amount :=
          le_round2_of_cent_le (by unfold orderStaxDue; exact cent_round2 _) hdue
        have hle0 : orderDue y - (paidSumForOrder st.taxRecords oid + round2 amount) ≤ 0 := by
          rw [orderDue_eq_orderStaxDue]
          linarith
        have : round2 (orderDue y - (paidSumForOrder st.taxRecords oid + round2 amount)) ≤ 0 :=
          round2_nonpos hle0
        exact max_eq_left this
      · rw [if_neg hyo] at hp2 ⊢
        have hneq : y.oid ≠ oid := fun hcon => absurd (beq_iff_eq.mpr hcon) (by simp [hyo])
        rw [calcRemaining_append_other (by simp [beq_iff_eq]; exact fun hcon => absurd hcon.symm hneq)]
        exact h2 y hy hp2
    · -- ids remain unique
      rw [map_oid_map_preserve hfoid]
      exact h3
    · -- monotone evolution
      apply forall₂_mono_map
      intro x hx
      by_cases hxo : (x.oid == oid) = true
      · have hxeq : x = o := hoeq x hx hxo
        rw [if_pos hxo]
        subst hxeq
        refine ⟨rfl, ?_, fun _ => isPaidOrder_updAfterStax _ _ _ _ _⟩
        have : rankOf (updAfterStax amount ref paidBy payDt x) = 2 := by
          unfold rankOf
          rw [isPaidOrder_updAfterStax]
          simp
        rw [this]
        exact le_trans (rankOf_le_one_of_not_paid hopaid) (by omega)
      · rw [if_neg hxo]
        exact orderMono_refl x

/-- A bank-payment allocation preserves well-formedness and evolves every order
monotonically. -/
theorem payOmc_inv_mono (st : DBState) (bank : ℕ) (omc : String) (amount : ℚ)
    (ref paidBy : String) (payDt : ℕ) (h : Inv st) :
    Inv (pay_omc_from_bank st bank omc amount ref paidBy payDt).1 ∧
    List.Forall₂ OrderMono st.orders
      (pay_omc_from_bank st bank omc amount ref paidBy payDt).1.orders := by
  obtain ⟨h1, h2, h3⟩ := h
  unfold pay_omc_from_bank
  by_cases c1 : (omc == "") = true
  · rw [if_pos c1]; exact ⟨⟨h1, h2, h3⟩, forall₂_mono_refl st.orders⟩
  rw [if_neg c1]
  by_cases c2 : amount ≤ 0
  · rw [if_pos c2]; exact ⟨⟨h1, h2, h3⟩, forall₂_mono_refl st.orders⟩
  rw [if_neg c2]
  simp only
  by_cases c3 : totalOutstanding st omc ≤ 0
  · rw [if_pos c3]; exact ⟨⟨h1, h2, h3⟩, forall₂_mono_refl st.orders⟩
  rw [if_neg c3]
  by_cases c4 : totalOutstanding st omc < amount
  · rw [if_pos c4]; exact ⟨⟨h1, h2, h3⟩, forall₂_mono_refl st.orders⟩
  rw [if_neg c4]
  apply allocLoop_inv_mono bank omc ref paidBy payDt (allocList st omc) st amount h1 h2 h3
  · -- every allocation item is a distinct unpaid order with positive remaining
    intro p hp
    obtain ⟨hpm, hprem, hppos, _⟩ := allocList_mem hp
    refine ⟨hpm, ?_, hppos⟩
    cases hpd : isPaidOrder p.1 with
    | false => rfl
    | true =>
      have := h2 p.1 hpm hpd
      rw [hprem, this] at hppos
      exact absurd hppos (by norm_num)
  · -- ids in the allocation list are distinct
    have hsl : List.Sublist ((st.orders.filter (eligibleBank omc)).map Order.oid)
        (st.orders.map Order.oid) := (List.filter_sublist _).map Order.oid
    have hn1 : ((st.orders.filter (eligibleBank omc)).map Order.oid).Nodup :=
      h3.sublist hsl
    have hperm : List.Perm
        ((sortByDate (st.orders.filter (eligibleBank omc))).map Order.oid)
        ((st.orders.filter (eligibleBank omc)).map Order.oid) :=
      (List.perm_insertionSort _ _).map Order.oid
    have hn2 : ((sortByDate (st.orders.filter (eligibleBank omc))).map Order.oid).Nodup :=
      hperm.nodup_iff.mpr hn1
    unfold allocList
    have heq : (((((sortByDate (st.orders.filter (eligibleBank omc)))).map
        (fun o => (o, calcRemaining st.taxRecords o))).filter
          (fun p => decide (0 < p.2))).map fun p => p.1.oid) =
        ((sortByDate (st.orders.filter (eligibleBank omc))).filter
          (fun o => decide (0 < calcRemaining st.taxRecords o))).map Order.oid := by
      rw [List.filter_map, List.map_map]
      rfl
    rw [heq]
    exact hn2.sublist ((List.filter_sublist _).map Order.oid)

/-- One reconciliation operation preserves well-formedness and evolves every
order monotonically. -/
theorem applyOp_inv_mono (st : DBState) (op : Op) (h : Inv st) :
    Inv (applyOp st op) ∧ List.Forall₂ OrderMono st.orders (applyOp st op).orders := by
  cases op with
  | stax oid amount ref paidBy payDt => exact payStax_inv_mono st oid amount ref paidBy payDt h
  | bank bank omc amount ref paidBy payDt =>
      exact payOmc_inv_mono st bank omc amount ref paidBy payDt h

/-- C9: across every sequence of single-order payments and bank-payment
allocations starting from a well-formed ledger (non-negative recorded amounts,
paid orders settled, unique order ids), every order evolves with the same id,
a non-decreasing status rank on the pending → partial → paid scale, and in
particular an order whose status is `"paid"` is never moved back to
`"partial"` or `"pending"`. -/
theorem status_forward_over_sequences (st : DBState) (ops : List Op) (h : Inv st) :
    List.Forall₂ OrderMono st.orders (applyOps st ops).orders := by
  induction ops generalizing st with
  | nil => exact forall₂_mono_refl st.orders
  | cons op ops ih =>
    obtain ⟨hInv1, hmono1⟩ := applyOp_inv_mono st op h
    have : applyOps st (op :: ops) = applyOps (applyOp st op) ops := by
      unfold applyOps
      rw [List.foldl_cons]
    rw [this]
    exact forall₂_mono_trans hmono1 (ih (applyOp st op) hInv1)

/-- C9 witness: a well-formed single-order state evolved by one payment. -/
theorem status_forward_witness :
    Inv ⟨[ordJan1], []⟩ ∧
    List.Forall₂ OrderMono (DBState.mk [ordJan1] []).orders
      (applyOps ⟨[ordJan1], []⟩ [Op.stax 1 100 "" "" 0]).orders := by
  have hInv : Inv ⟨[ordJan1], []⟩ := by
    refine ⟨by simp, ?_, by simp⟩
    intro o ho hpaid
    rcases List.mem_singleton.mp ho with rfl
    exact absurd hpaid (by decide)
  exact ⟨hInv, status_forward_over_sequences ⟨[ordJan1], []⟩ [Op.stax 1 100 "" "" 0] hInv⟩

end TTS
